import Mathlib

/-!
Shallow embedding of the DiscordStockSentimentBot news-aggregation core
(`src/app`), together with theorems settling the specification claims.

Conventions of the embedding:
* `datetime` instants are modelled as integer UNIX timestamps in seconds
  (`ℤ`); `timedelta(hours=h)` is `h * 3600` seconds.
* Python `float` probabilities and scores are modelled as exact rationals
  (`ℚ`); `0.15` is the rational `3/20`.
* `None`-able fields are `Option`; Python truthiness of a string `s` is
  `s ≠ ""`, of an optional value `o` it is `o ≠ none` (plus nonemptiness
  for strings where relevant).
* Fallible fragments that the source wraps in `try/except` are modelled
  by explicit alternatives in the input data types; totality of the Lean
  functions models the "never raises" behaviour of the source.
-/

namespace StockBot

/-- Article model, from `app/models/news_article.py` (`NewsArticle`). -/
structure NewsArticle where
  title : String
  description : Option String
  content : Option String
  url : String
  source : String
  published_at : ℤ
  author : Option String := none
deriving DecidableEq, Repr

/-- Python `str.lower()`, modelled as per-character lowercasing of the
string's characters. -/
def pyLower (s : String) : String :=
  String.mk (s.data.map Char.toLower)

/-- Python `str.strip()`: remove leading and trailing whitespace. -/
def pyStrip (s : String) : String :=
  String.mk
    (((s.data.dropWhile Char.isWhitespace).reverse.dropWhile
        Char.isWhitespace).reverse)

/-- Normalized dedup key: `article.title.lower().strip()`
(`stock_analysis_job.py`, line 118). -/
def normTitle (title : String) : String :=
  pyStrip (pyLower title)

/-- Loop of `StockAnalysisJob._deduplicate_articles`: walk the list with a
set of already-seen normalized titles, keeping an article only when its
normalized title has not been seen. -/
def dedupGo (seen : List String) : List NewsArticle → List NewsArticle
  | [] => []
  | a :: rest =>
    if normTitle a.title ∈ seen then
      dedupGo seen rest
    else
      a :: dedupGo (normTitle a.title :: seen) rest

/-- `StockAnalysisJob._deduplicate_articles` (`stock_analysis_job.py`,
lines 100-124). -/
def deduplicate_articles (articles : List NewsArticle) : List NewsArticle :=
  dedupGo [] articles

/-- Boolean predicate selecting the articles of a given normalized title. -/
def hasNormTitle (t : String) (a : NewsArticle) : Bool :=
  normTitle a.title == t

theorem dedupGo_sublist (seen : List String) (l : List NewsArticle) :
    (dedupGo seen l).Sublist l := by
  induction l generalizing seen with
  | nil => simp [dedupGo]
  | cons a rest ih =>
    by_cases h : normTitle a.title ∈ seen
    · simp only [dedupGo, if_pos h]
      exact (ih seen).trans (List.sublist_cons_self a rest)
    · simp only [dedupGo, if_neg h]
      exact (ih (normTitle a.title :: seen)).cons₂ a

theorem mem_dedupGo_not_seen {seen : List String} {l : List NewsArticle}
    {a : NewsArticle} (h : a ∈ dedupGo seen l) : normTitle a.title ∉ seen := by
  induction l generalizing seen with
  | nil => simp [dedupGo] at h
  | cons b rest ih =>
    by_cases hb : normTitle b.title ∈ seen
    · rw [dedupGo, if_pos hb] at h
      exact ih h
    · rw [dedupGo, if_neg hb] at h
      rcases List.mem_cons.mp h with rfl | h'
      · exact hb
      · intro hs
        exact ih h' (List.mem_cons_of_mem _ hs)

theorem dedupGo_countP (t : String) (l : List NewsArticle) (seen : List String) :
    (dedupGo seen l).countP (hasNormTitle t)
      = if t ∈ seen then 0 else min 1 (l.countP (hasNormTitle t)) := by
  induction l generalizing seen with
  | nil => simp [dedupGo]
  | cons a rest ih =>
    by_cases hs : normTitle a.title ∈ seen
    · rw [dedupGo, if_pos hs, ih]
      by_cases ht : t ∈ seen
      · simp [ht]
      · have hpa : hasNormTitle t a = false := by
          simp only [hasNormTitle, beq_eq_false_iff_ne, ne_eq]
          intro he; exact ht (he ▸ hs)
        simp [ht, List.countP_cons, hpa]
    · rw [dedupGo, if_neg hs]
      by_cases he : normTitle a.title = t
      · subst he
        have hpa : hasNormTitle (normTitle a.title) a = true := by
          simp [hasNormTitle]
        have h1 : normTitle a.title ∈ normTitle a.title :: seen :=
          List.mem_cons_self _ _
        rw [List.countP_cons, List.countP_cons, ih, if_pos h1, if_neg hs, hpa]
        simp only [if_pos rfl, if_true]
        omega
      · have hpa : hasNormTitle t a = false := by
          simp [hasNormTitle, he]
        by_cases ht : t ∈ seen
        · have h2 : t ∈ normTitle a.title :: seen := List.mem_cons_of_mem _ ht
          rw [List.countP_cons, List.countP_cons, ih, if_pos h2, if_pos ht, hpa]
          simp
        · have h2 : t ∉ normTitle a.title :: seen := by
            intro hmem
            rcases List.mem_cons.mp hmem with h3 | h3
            · exact he h3.symm
            · exact ht h3
          rw [List.countP_cons, List.countP_cons, ih, if_neg h2, if_neg ht, hpa]
          simp

theorem dedupGo_find? {seen : List String} {l : List NewsArticle}
    {a : NewsArticle} (h : a ∈ dedupGo seen l) :
    l.find? (hasNormTitle (normTitle a.title)) = some a := by
  induction l generalizing seen with
  | nil => simp [dedupGo] at h
  | cons b rest ih =>
    by_cases hb : normTitle b.title ∈ seen
    · rw [dedupGo, if_pos hb] at h
      have hne : normTitle a.title ≠ normTitle b.title := by
        intro he; exact mem_dedupGo_not_seen h (he ▸ hb)
      have hpb : hasNormTitle (normTitle a.title) b = false := by
        simp only [hasNormTitle, beq_eq_false_iff_ne, ne_eq]
        exact fun he => hne he.symm
      rw [List.find?_cons, hpb]
      exact ih h
    · rw [dedupGo, if_neg hb] at h
      rcases List.mem_cons.mp h with rfl | h'
      · have hpb : hasNormTitle (normTitle a.title) a = true := by
          simp [hasNormTitle]
        rw [List.find?_cons, hpb]
      · have hnotin := mem_dedupGo_not_seen h'
        have hne : normTitle a.title ≠ normTitle b.title := by
          intro he
          exact hnotin (he ▸ List.mem_cons_self _ _)
        have hpb : hasNormTitle (normTitle a.title) b = false := by
          simp only [hasNormTitle, beq_eq_false_iff_ne, ne_eq]
          exact fun he => hne he.symm
        rw [List.find?_cons, hpb]
        exact ih h'

theorem dedupGo_pairwise (seen : List String) (l : List NewsArticle) :
    (dedupGo seen l).Pairwise
      (fun a b => normTitle a.title ≠ normTitle b.title) := by
  induction l generalizing seen with
  | nil => simp [dedupGo]
  | cons a rest ih =>
    by_cases hs : normTitle a.title ∈ seen
    · rw [dedupGo, if_pos hs]; exact ih seen
    · rw [dedupGo, if_neg hs]
      refine List.Pairwise.cons ?_ (ih _)
      intro b hb he
      exact mem_dedupGo_not_seen hb (he ▸ List.mem_cons_self _ _)

/-- CLAIM C2: merging a sequence of provider pools by concatenation and
deduplication keeps, for each normalized title occurring in the
concatenation, exactly one article — namely the first occurrence of that
title — and otherwise preserves the first-seen order (the result is a
sublist of the concatenation). -/
theorem dedup_merge_first_occurrence (pools : List (List NewsArticle)) :
    (deduplicate_articles pools.flatten).Sublist pools.flatten
    ∧ (∀ t : String,
        (deduplicate_articles pools.flatten).countP (hasNormTitle t)
          = min 1 (pools.flatten.countP (hasNormTitle t)))
    ∧ (∀ a ∈ deduplicate_articles pools.flatten,
        pools.flatten.find? (hasNormTitle (normTitle a.title)) = some a) := by
  refine ⟨dedupGo_sublist [] _, ?_, ?_⟩
  · intro t
    rw [deduplicate_articles, dedupGo_countP]
    simp
  · intro a ha
    exact dedupGo_find? ha

/-! Analysis pipeline, `StockAnalysisJob.run_implementation`
(`stock_analysis_job.py`, lines 126-254).  After `setup_resources` all three
scraper attributes are non-`None`, so the `and self.yahoo_scraper` /
`and self.finnhub_scraper` conjuncts are always truthy; the lists returned
by the three providers are inputs of the embedding. -/

/-- Threshold `min_articles = 5` (`stock_analysis_job.py`, line 150). -/
def min_articles : ℕ := 5

/-- Outcome of the cascade portion of `run_implementation`: the final
article pool (`self.articles` as handed to step 3, content fetching, and
step 4, sentiment analysis) and whether the Yahoo (provider B) and Finnhub
(provider C) fallbacks were queried. -/
structure CascadeRun where
  pool : List NewsArticle
  queriedB : Bool
  queriedC : Bool
deriving Repr

/-- Steps 1, 2 and 2b of `StockAnalysisJob.run_implementation`: start from
the NewsAPI result; if fewer than `min_articles` articles are stored, query
Yahoo Finance, concatenate and deduplicate; if still fewer than
`min_articles`, query Finnhub, concatenate and deduplicate. -/
def run_cascade (resA resB resC : List NewsArticle) : CascadeRun :=
  let articles0 := resA
  let step2 : List NewsArticle × Bool :=
    if articles0.length < min_articles then
      (deduplicate_articles (articles0 ++ resB), true)
    else
      (articles0, false)
  let step2b : List NewsArticle × Bool :=
    if step2.1.length < min_articles then
      (deduplicate_articles (step2.1 ++ resC), true)
    else
      (step2.1, false)
  ⟨step2b.1, step2.2, step2b.2⟩

/-- Relation of normalized-title distinctness between two articles. -/
def distinctTitles (a b : NewsArticle) : Prop :=
  normTitle a.title ≠ normTitle b.title

instance : DecidableRel distinctTitles := fun a b =>
  inferInstanceAs (Decidable (normTitle a.title ≠ normTitle b.title))

/-- CLAIM C1 (amended): whenever at least one fallback provider was queried
in a pipeline run, the final merged pool handed to content enrichment and
sentiment analysis contains no two articles whose normalized titles are
equal.  (When provider A alone meets the threshold, no deduplication runs
and duplicates inside provider A's result survive; see the
counterexample.) -/
theorem cascade_pool_nodup_titles_of_fallback
    (resA resB resC : List NewsArticle)
    (h : (run_cascade resA resB resC).queriedB = true
      ∨ (run_cascade resA resB resC).queriedC = true) :
    (run_cascade resA resB resC).pool.Pairwise distinctTitles := by
  by_cases h2 : resA.length < min_articles
  · by_cases h3 :
        (deduplicate_articles (resA ++ resB)).length < min_articles
    · have hp : (run_cascade resA resB resC).pool
          = deduplicate_articles (deduplicate_articles (resA ++ resB) ++ resC) := by
        simp [run_cascade, h2, h3]
      rw [hp]
      exact dedupGo_pairwise [] _
    · have hp : (run_cascade resA resB resC).pool
          = deduplicate_articles (resA ++ resB) := by
        simp [run_cascade, h2, h3]
      rw [hp]
      exact dedupGo_pairwise [] _
  · have hB : (run_cascade resA resB resC).queriedB = false := by
      simp [run_cascade, h2]
    have hC : (run_cascade resA resB resC).queriedC = false := by
      simp [run_cascade, h2]
    rcases h with h | h
    · rw [hB] at h
      exact absurd h (by simp)
    · rw [hC] at h
      exact absurd h (by simp)

/-- Article constructor used by concrete witnesses: a title and a URL,
other fields fixed. -/
def mkArticle (t u : String) : NewsArticle :=
  { title := t, description := none, content := none, url := u,
    source := "s", published_at := 0 }

/-- Provider-A result with five articles of which two share a normalized
title: above the raw-count threshold, so no fallback and no dedup runs. -/
def dupPoolA : List NewsArticle :=
  [mkArticle "t1" "u1", mkArticle "t1" "u2", mkArticle "t2" "u3",
   mkArticle "t3" "u4", mkArticle "t4" "u5"]

/-- CLAIM C1 counterexample: with `dupPoolA` as the NewsAPI result, neither
fallback is queried, and the final pool handed to enrichment and sentiment
analysis contains two articles (positions 0 and 1) with equal normalized
titles — the claimed invariant fails. -/
theorem cascade_pool_dup_counterexample :
    (run_cascade dupPoolA [] []).queriedB = false
    ∧ (run_cascade dupPoolA [] []).queriedC = false
    ∧ ¬ (run_cascade dupPoolA [] []).pool.Pairwise distinctTitles := by
  refine ⟨rfl, rfl, ?_⟩
  intro h
  have h0 : (run_cascade dupPoolA [] []).pool = dupPoolA := rfl
  rw [h0] at h
  have := (List.pairwise_cons.mp h).1 (mkArticle "t1" "u2") (by simp [dupPoolA])
  exact this rfl

/-- Concrete pools for the C2 witness: the third article duplicates the
normalized title of the first. -/
def witnessPools : List (List NewsArticle) :=
  [[mkArticle "Alpha" "u1", mkArticle "beta" "u2"], [mkArticle "alpha" "u3"]]

/-- Witness for C2 at `witnessPools`: the merge is a sublist of the
concatenation, keeps exactly one article of normalized title `alpha`, and
the article found for that title is the first occurrence. -/
theorem dedup_merge_first_occurrence_witness :
    (deduplicate_articles witnessPools.flatten).Sublist witnessPools.flatten
    ∧ (deduplicate_articles witnessPools.flatten).countP (hasNormTitle "alpha")
        = min 1 (witnessPools.flatten.countP (hasNormTitle "alpha"))
    ∧ witnessPools.flatten.find?
        (hasNormTitle (normTitle (mkArticle "Alpha" "u1").title))
        = some (mkArticle "Alpha" "u1") :=
  ⟨(dedup_merge_first_occurrence witnessPools).1,
   (dedup_merge_first_occurrence witnessPools).2.1 "alpha",
   (dedup_merge_first_occurrence witnessPools).2.2 (mkArticle "Alpha" "u1")
     (by decide)⟩

/-- CLAIM C3 (amended): provider B (Yahoo) is queried exactly when the raw
stored article count after provider A is below `min_articles` — duplicates
included, with no deduplication of provider A's own result; provider C
(Finnhub) is queried exactly when the stored count after the optional
B merge-and-dedup step is below `min_articles`; a provider whose count
threshold is already met is never invoked. -/
theorem cascade_threshold_conditions (resA resB resC : List NewsArticle) :
    ((run_cascade resA resB resC).queriedB = true
      ↔ resA.length < min_articles)
    ∧ ((run_cascade resA resB resC).queriedC = true
      ↔ (if resA.length < min_articles then
            deduplicate_articles (resA ++ resB)
          else resA).length < min_articles)
    ∧ (min_articles ≤ resA.length →
        (run_cascade resA resB resC).queriedB = false
        ∧ (run_cascade resA resB resC).queriedC = false) := by
  by_cases h2 : resA.length < min_articles
  · by_cases h3 :
        (deduplicate_articles (resA ++ resB)).length < min_articles
    · refine ⟨by simp [run_cascade, h2], by simp [run_cascade, h2, h3], ?_⟩
      intro hge
      exact absurd h2 (not_lt.mpr hge)
    · refine ⟨by simp [run_cascade, h2], by simp [run_cascade, h2, h3], ?_⟩
      intro hge
      exact absurd h2 (not_lt.mpr hge)
  · refine ⟨by simp [run_cascade, h2], by simp [run_cascade, h2], ?_⟩
    intro _
    exact ⟨by simp [run_cascade, h2], by simp [run_cascade, h2]⟩

/-- Witness for the amended C3 at a provider-A pool of five stored
articles: the threshold is met, so neither fallback fires. -/
theorem cascade_threshold_conditions_witness :
    (run_cascade dupPoolA [] []).queriedB = false
    ∧ (run_cascade dupPoolA [] []).queriedC = false :=
  (cascade_threshold_conditions dupPoolA [] []).2.2 (by decide)

/-- CLAIM C3 counterexample: provider A returns five stored articles of
which only four are unique; the claim ("provider B is queried iff the
count after provider A is below 5 unique articles") demands the fallback,
but the code compares the raw length 5 against the threshold and skips
both providers B and C. -/
theorem cascade_threshold_unique_counterexample :
    (deduplicate_articles dupPoolA).length = 4
    ∧ (run_cascade dupPoolA [mkArticle "fresh" "u9"] []).queriedB = false
    ∧ (run_cascade dupPoolA [mkArticle "fresh" "u9"] []).queriedC = false := by
  refine ⟨by decide, rfl, rfl⟩

/-- Witness for the amended C1: a run whose provider-A result is short, so
the Yahoo fallback is queried and the final pool is deduplicated. -/
theorem cascade_pool_nodup_titles_of_fallback_witness :
    (run_cascade [mkArticle "t1" "u1"] dupPoolA [] ).queriedB = true
    ∧ (run_cascade [mkArticle "t1" "u1"] dupPoolA []).pool.Pairwise
        distinctTitles :=
  ⟨rfl,
    cascade_pool_nodup_titles_of_fallback [mkArticle "t1" "u1"] dupPoolA []
      (Or.inl rfl)⟩

/-! Sentiment analysis, `app/services/sentiment_analyzer.py`.  Per-article
class probabilities are the `all_scores` dictionaries produced by
`analyze_article`; probabilities and scores are exact rationals. -/

/-- Class probabilities over the three labels (the `all_scores` dict). -/
structure SentimentScores where
  positive : ℚ
  negative : ℚ
  neutral : ℚ
deriving DecidableEq, Repr

/-- Per-article result dict built by `SentimentAnalyzer.analyze_article`. -/
structure SentimentResult where
  label : String
  score : ℚ
  all_scores : SentimentScores
  text_length : ℕ
deriving DecidableEq, Repr

/-- Label branch of `SentimentAnalyzer.aggregate_sentiment`
(`sentiment_analyzer.py`, lines 209-216). -/
def sentimentLabelFor (sentiment_score : ℚ) : String :=
  if sentiment_score ≥ (0.15 : ℚ) then "positive"
  else if sentiment_score ≤ (-0.15 : ℚ) then "negative"
  else "neutral"

/-- `SentimentAnalyzer.aggregate_sentiment` (`sentiment_analyzer.py`,
lines 173-218).  The averaged neutral probability and the `scores` dict are
computed by the source but unused; they are omitted here. -/
def aggregate_sentiment (results : List SentimentResult) : String × ℚ :=
  if results = [] then ("neutral", 0)
  else
    let count : ℚ := results.length
    let avg_positive := (results.map (fun r => r.all_scores.positive)).sum / count
    let avg_negative := (results.map (fun r => r.all_scores.negative)).sum / count
    let sentiment_score := avg_positive - avg_negative
    (sentimentLabelFor sentiment_score, sentiment_score)

/-- CLAIM C4: for every verdict list the aggregate score is the mean of the
per-article positive probabilities minus the mean of the negative
probabilities, and the empty list aggregates to score `0` with label
`neutral`. -/
theorem aggregate_sentiment_mean_formula :
    (∀ results : List SentimentResult,
      (aggregate_sentiment results).2
        = (results.map (fun r => r.all_scores.positive)).sum
            / (results.length : ℚ)
          - (results.map (fun r => r.all_scores.negative)).sum
            / (results.length : ℚ))
    ∧ aggregate_sentiment [] = ("neutral", 0) := by
  constructor
  · intro results
    by_cases h : results = []
    · subst h
      simp [aggregate_sentiment]
    · simp [aggregate_sentiment, h]
  · rfl

/-- CLAIM C5: the aggregate label is `positive` exactly when the score is
at least `0.15`, `negative` exactly when it is at most `-0.15`, `neutral`
otherwise; the boundary scores `0.15`, `-0.15` and `0` map to `positive`,
`negative` and `neutral` respectively, and `aggregate_sentiment` labels its
score with exactly this function. -/
theorem sentiment_label_threshold_bands :
    (∀ score : ℚ,
      (sentimentLabelFor score = "positive" ↔ (0.15 : ℚ) ≤ score)
      ∧ (sentimentLabelFor score = "negative" ↔ score ≤ (-0.15 : ℚ))
      ∧ (sentimentLabelFor score = "neutral"
          ↔ ((-0.15 : ℚ) < score ∧ score < (0.15 : ℚ))))
    ∧ sentimentLabelFor (0.15 : ℚ) = "positive"
    ∧ sentimentLabelFor (-0.15 : ℚ) = "negative"
    ∧ sentimentLabelFor 0 = "neutral"
    ∧ (∀ results : List SentimentResult,
        (aggregate_sentiment results).1
          = sentimentLabelFor (aggregate_sentiment results).2) := by
  have hbands : ∀ score : ℚ,
      (sentimentLabelFor score = "positive" ↔ (0.15 : ℚ) ≤ score)
      ∧ (sentimentLabelFor score = "negative" ↔ score ≤ (-0.15 : ℚ))
      ∧ (sentimentLabelFor score = "neutral"
          ↔ ((-0.15 : ℚ) < score ∧ score < (0.15 : ℚ))) := by
    intro score
    by_cases h1 : score ≥ (0.15 : ℚ)
    · have hl : sentimentLabelFor score = "positive" := by
        simp [sentimentLabelFor, h1]
      refine ⟨⟨fun _ => h1, fun _ => hl⟩, ?_, ?_⟩
      · constructor
        · intro hh
          rw [hl] at hh
          exact absurd hh (by decide)
        · intro hh
          linarith
      · constructor
        · intro hh
          rw [hl] at hh
          exact absurd hh (by decide)
        · intro hh
          linarith [hh.2]
    · by_cases h2 : score ≤ (-0.15 : ℚ)
      · have hl : sentimentLabelFor score = "negative" := by
          simp [sentimentLabelFor, h1, h2]
        refine ⟨?_, ⟨fun _ => h2, fun _ => hl⟩, ?_⟩
        · constructor
          · intro hh
            rw [hl] at hh
            exact absurd hh (by decide)
          · intro hh
            exact absurd hh h1
        · constructor
          · intro hh
            rw [hl] at hh
            exact absurd hh (by decide)
          · intro hh
            linarith [hh.1]
      · have hl : sentimentLabelFor score = "neutral" := by
          simp [sentimentLabelFor, h1, h2]
        refine ⟨?_, ?_, ⟨fun _ => ⟨by linarith [not_le.mp h2], by
          linarith [not_le.mp (fun hc => h1 hc)]⟩, fun _ => hl⟩⟩
        · constructor
          · intro hh
            rw [hl] at hh
            exact absurd hh (by decide)
          · intro hh
            exact absurd hh h1
        · constructor
          · intro hh
            rw [hl] at hh
            exact absurd hh (by decide)
          · intro hh
            exact absurd hh h2
  refine ⟨hbands, ?_, ?_, ?_, ?_⟩
  · exact (hbands (0.15 : ℚ)).1.mpr le_rfl
  · exact (hbands (-0.15 : ℚ)).2.1.mpr le_rfl
  · exact (hbands 0).2.2.mpr (by norm_num)
  · intro results
    by_cases h : results = []
    · subst h
      have h0 : aggregate_sentiment ([] : List SentimentResult)
          = ("neutral", 0) := rfl
      rw [h0]
      exact ((hbands 0).2.2.mpr (by norm_num)).symm
    · simp [aggregate_sentiment, h]

/-! Provider clients.  HTTP traffic is abstracted as an `HttpResult` input:
either a network error (any exception raised by the session) or a response
with a status code and a body; the body types record the payload shapes the
parsing code distinguishes, including malformed payloads whose JSON
decoding (or attribute access) raises. -/

/-- Abstract outcome of an HTTP `GET`. -/
inductive HttpResult (β : Type) where
  | netError
  | response (status : ℕ) (body : β)
deriving Repr

/-- Containment of one character list in another, at any position. -/
def listIsInfix (pat : List Char) : List Char → Bool
  | [] => pat.isEmpty
  | c :: rest => pat.isPrefixOf (c :: rest) || listIsInfix pat rest

/-- Python `pattern in text` for strings: infix containment. -/
def strContains (s pat : String) : Bool :=
  listIsInfix pat.data s.data

/-- Python `s.startswith(pre)`. -/
def pyStartswith (s pre : String) : Bool :=
  pre.data.isPrefixOf s.data

/-- Numeric value of a digit list, as Python `int` on the digit string. -/
def digitsVal (l : List Char) : ℕ :=
  l.foldl (fun n c => n * 10 + (c.toNat - 48)) 0

/-! NewsAPI client, `app/services/news_scraper.py` (`NewsScraper`). -/

/-- State of the `publishedAt` field of a raw NewsAPI article: falsy
(absent or empty, so the fetch instant is substituted), present but
unparsable by `datetime.fromisoformat` (the per-article `except` skips the
article), or parsed to a UTC instant. -/
inductive DateField where
  | absent
  | malformed
  | parsed (t : ℤ)
deriving DecidableEq, Repr

/-- Raw article dictionary from the NewsAPI response. -/
structure NewsApiRawArticle where
  title : Option String := none
  description : Option String := none
  content : Option String := none
  url : Option String := none
  sourceName : Option String := none
  publishedAt : DateField := .absent
  author : Option String := none
deriving DecidableEq, Repr

/-- `NewsScraper._parse_articles` (`news_scraper.py`, lines 116-159): each
raw article is converted with defaulted fields; no time-window, title or
URL filtering happens and no count cap is applied. -/
def newsapi_parse_articles (now : ℤ) :
    List NewsApiRawArticle → List NewsArticle
  | [] => []
  | r :: rest =>
    match r.publishedAt with
    | .malformed => newsapi_parse_articles now rest
    | .absent =>
      { title := r.title.getD "", description := r.description,
        content := r.content, url := r.url.getD "",
        source := r.sourceName.getD "Unknown", published_at := now,
        author := r.author } :: newsapi_parse_articles now rest
    | .parsed t =>
      { title := r.title.getD "", description := r.description,
        content := r.content, url := r.url.getD "",
        source := r.sourceName.getD "Unknown", published_at := t,
        author := r.author } :: newsapi_parse_articles now rest

/-- Body of a NewsAPI response: `malformed` when `response.json()` or the
subsequent attribute accesses raise, otherwise the decoded object with its
`status`, `totalResults` and `articles` keys. -/
inductive NewsApiBody where
  | malformed
  | payload (status : Option String) (totalResults : ℕ)
      (articles : List NewsApiRawArticle)
deriving Repr

/-- `NewsScraper.search_news` (`news_scraper.py`, lines 37-114).
`hours_back` and `max_articles` are only sent to the server inside the
request parameters (`from`, `to`, `pageSize`); the client applies no
filtering of its own to the parsed response. -/
def newsapi_search_news (now : ℤ) (hours_back max_articles : ℕ)
    (resp : HttpResult NewsApiBody) : List NewsArticle :=
  match hours_back, max_articles, resp with
  | _, _, .netError => []
  | _, _, .response status body =>
    if status ≠ 200 then []
    else
      match body with
      | .malformed => []
      | .payload st _ articles =>
        if st ≠ some "ok" then [] else newsapi_parse_articles now articles

/-! Finnhub client, `app/services/finnhub_scraper.py` (`FinnhubScraper`). -/

/-- Raw article dictionary from the Finnhub response. -/
structure FinnhubItem where
  headline : Option String := none
  url : Option String := none
  datetime : Option ℤ := none
  summary : Option String := none
  source : Option String := none
deriving DecidableEq, Repr

/-- `FinnhubScraper._parse_single_article` (`finnhub_scraper.py`, lines
153-214): reject empty or short (< 10 chars) headlines and missing URLs;
a falsy (absent or zero) timestamp is replaced by the fetch instant. -/
def finnhub_parse_single (now : ℤ) (item : FinnhubItem) :
    Option NewsArticle :=
  let title := pyStrip (item.headline.getD "")
  if title = "" ∨ title.length < 10 then none
  else
    let url := item.url.getD ""
    if url = "" then none
    else
      let timestamp := item.datetime.getD 0
      let published_at := if timestamp ≠ 0 then timestamp else now
      let description := pyStrip (item.summary.getD "")
      let source := pyStrip (item.source.getD "Finnhub")
      some { title := title, description := some description,
             content := some description, url := url, source := source,
             published_at := published_at }

/-- Loop of `FinnhubScraper._parse_articles` (`finnhub_scraper.py`, lines
135-151): keep parsed articles within the window, stopping once
`max_articles` are collected. -/
def finnhubLoop (cutoff : ℤ) (maxA : ℕ) (now : ℤ) :
    List FinnhubItem → List NewsArticle → List NewsArticle
  | [], acc => acc
  | item :: rest, acc =>
    match finnhub_parse_single now item with
    | none => finnhubLoop cutoff maxA now rest acc
    | some a =>
      if cutoff ≤ a.published_at then
        let acc2 := acc ++ [a]
        if maxA ≤ acc2.length then acc2
        else finnhubLoop cutoff maxA now rest acc2
      else finnhubLoop cutoff maxA now rest acc

/-- `FinnhubScraper._parse_articles` (`finnhub_scraper.py`, lines
116-151). -/
def finnhub_parse_articles (now : ℤ) (hours_back max_articles : ℕ)
    (data : List FinnhubItem) : List NewsArticle :=
  finnhubLoop (now - hours_back * 3600) max_articles now data []

/-- Body of a Finnhub response: `malformed` when `response.json()` raises,
`notList` when the decoded payload is not a list, otherwise the items. -/
inductive FinnhubBody where
  | malformed
  | notList
  | items (data : List FinnhubItem)
deriving Repr

/-- `FinnhubScraper.search_news` (`finnhub_scraper.py`, lines 36-114). -/
def finnhub_search_news (now : ℤ) (hours_back max_articles : ℕ)
    (resp : HttpResult FinnhubBody) : List NewsArticle :=
  match resp with
  | .netError => []
  | .response status body =>
    if status ≠ 200 then []
    else
      match body with
      | .malformed => []
      | .notList => []
      | .items data => finnhub_parse_articles now hours_back max_articles data

/-! Yahoo Finance client, `app/services/yahoo_finance_scraper.py`
(`YahooFinanceScraper`).  BeautifulSoup element selection is abstracted:
a `YahooItem` records the text of the sub-elements the parser reads. -/

/-- One candidate news element from the Yahoo Finance page. -/
structure YahooItem where
  h3Text : Option String := none
  altHeadText : Option String := none
  href : Option String := none
  pText : Option String := none
  timeText : Option String := none
  greyText : Option String := none
deriving DecidableEq, Repr

/-- `YahooFinanceScraper._parse_time` (`yahoo_finance_scraper.py`, lines
239-271): resolve relative times ("3 hours ago") against the fetch
instant; anything else (including a missing element) maps to the fetch
instant. -/
def yahoo_parse_time (now : ℤ) (timeText : Option String) : ℤ :=
  match timeText with
  | none => now
  | some t =>
    let tl := pyLower (pyStrip t)
    let ds := tl.data.filter Char.isDigit
    let n : ℤ := if ds.isEmpty then 1 else digitsVal ds
    if strContains tl "hour" then now - n * 3600
    else if strContains tl "minute" then now - n * 60
    else if strContains tl "day" then now - n * 86400
    else now

/-- `YahooFinanceScraper._parse_single_article` (`yahoo_finance_scraper.py`,
lines 158-237): reject missing or short (< 10 chars) titles; resolve
relative URLs against the site root, but keep an empty URL when no link is
found. -/
def yahoo_parse_single (now : ℤ) (item : YahooItem) : Option NewsArticle :=
  match item.h3Text.orElse (fun _ => item.altHeadText) with
  | none => none
  | some te =>
    let title := pyStrip te
    if title = "" ∨ title.length < 10 then none
    else
      let url :=
        match item.href with
        | some h =>
          if h ≠ "" then
            if pyStartswith h "/" then "https://finance.yahoo.com" ++ h
            else if ¬ pyStartswith h "http" then
              "https://finance.yahoo.com/" ++ h
            else h
          else ""
        | none => ""
      let description := item.pText.map pyStrip
      let published_at := yahoo_parse_time now item.timeText
      let source :=
        match item.greyText with
        | none => "Yahoo Finance"
        | some s =>
          let st := pyStrip s
          if strContains st "•" then
            pyStrip (String.mk (st.data.takeWhile (fun c => c ≠ '•')))
          else "Yahoo Finance"
      some { title := title, description := description,
             content := description, url := url, source := source,
             published_at := published_at }

/-- Loop of `YahooFinanceScraper._parse_articles` (`yahoo_finance_scraper.py`,
lines 141-154): keep parsed, titled articles within the window, checking
the count cap after every titled article. -/
def yahooLoop (cutoff : ℤ) (maxA : ℕ) (now : ℤ) :
    List YahooItem → List NewsArticle → List NewsArticle
  | [], acc => acc
  | item :: rest, acc =>
    match yahoo_parse_single now item with
    | none => yahooLoop cutoff maxA now rest acc
    | some a =>
      if a.title ≠ "" then
        let acc2 := if cutoff ≤ a.published_at then acc ++ [a] else acc
        if maxA ≤ acc2.length then acc2
        else yahooLoop cutoff maxA now rest acc2
      else yahooLoop cutoff maxA now rest acc

/-- `YahooFinanceScraper._parse_articles` (`yahoo_finance_scraper.py`,
lines 98-156): only the first `max_articles * 3` candidate elements are
considered. -/
def yahoo_parse_articles (now : ℤ) (hours_back max_articles : ℕ)
    (items : List YahooItem) : List NewsArticle :=
  yahooLoop (now - hours_back * 3600) max_articles now
    (items.take (max_articles * 3)) []

theorem finnhub_parse_single_props {now : ℤ} {item : FinnhubItem}
    {a : NewsArticle} (h : finnhub_parse_single now item = some a) :
    10 ≤ a.title.length ∧ a.url ≠ "" := by
  unfold finnhub_parse_single at h
  by_cases h1 : pyStrip (item.headline.getD "") = ""
      ∨ (pyStrip (item.headline.getD "")).length < 10
  · rw [if_pos h1] at h
    exact absurd h (by simp)
  · rw [if_neg h1] at h
    by_cases h2 : item.url.getD "" = ""
    · rw [if_pos h2] at h
      exact absurd h (by simp)
    · rw [if_neg h2] at h
      have ha := Option.some.inj h
      push_neg at h1
      constructor
      · rw [← ha]
        exact h1.2
      · rw [← ha]
        exact h2

theorem finnhubLoop_mem {cutoff : ℤ} {maxA : ℕ} {now : ℤ}
    (items : List FinnhubItem) (acc : List NewsArticle)
    (hacc : ∀ a ∈ acc,
      10 ≤ a.title.length ∧ a.url ≠ "" ∧ cutoff ≤ a.published_at) :
    ∀ a ∈ finnhubLoop cutoff maxA now items acc,
      10 ≤ a.title.length ∧ a.url ≠ "" ∧ cutoff ≤ a.published_at := by
  induction items generalizing acc with
  | nil => exact hacc
  | cons item rest ih =>
    rw [finnhubLoop]
    cases hp : finnhub_parse_single now item with
    | none => exact ih acc hacc
    | some a =>
      by_cases hc : cutoff ≤ a.published_at
      · simp only [if_pos hc]
        have hacc2 : ∀ b ∈ acc ++ [a],
            10 ≤ b.title.length ∧ b.url ≠ "" ∧ cutoff ≤ b.published_at := by
          intro b hb
          rcases List.mem_append.mp hb with hb | hb
          · exact hacc b hb
          · rcases List.mem_singleton.mp hb with rfl
            obtain ⟨ht, hu⟩ := finnhub_parse_single_props hp
            exact ⟨ht, hu, hc⟩
        by_cases hlen : maxA ≤ (acc ++ [a]).length
        · simp only [if_pos hlen]
          exact hacc2
        · simp only [if_neg hlen]
          exact ih _ hacc2
      · simp only [if_neg hc]
        exact ih acc hacc

theorem finnhubLoop_length {cutoff : ℤ} {maxA : ℕ} {now : ℤ}
    (items : List FinnhubItem) (acc : List NewsArticle)
    (hacc : acc.length < maxA) :
    (finnhubLoop cutoff maxA now items acc).length ≤ maxA := by
  induction items generalizing acc with
  | nil => exact le_of_lt hacc
  | cons item rest ih =>
    rw [finnhubLoop]
    cases hp : finnhub_parse_single now item with
    | none => exact ih acc hacc
    | some a =>
      by_cases hc : cutoff ≤ a.published_at
      · simp only [if_pos hc]
        have hlen2 : (acc ++ [a]).length = acc.length + 1 := by simp
        by_cases hlen : maxA ≤ (acc ++ [a]).length
        · simp only [if_pos hlen]
          rw [hlen2]
          omega
        · simp only [if_neg hlen]
          exact ih _ (by omega)
      · simp only [if_neg hc]
        exact ih acc hacc

theorem yahoo_parse_single_title {now : ℤ} {item : YahooItem}
    {a : NewsArticle} (h : yahoo_parse_single now item = some a) :
    10 ≤ a.title.length := by
  cases hh : item.h3Text.orElse (fun _ => item.altHeadText) with
  | none => simp [yahoo_parse_single, hh] at h
  | some te =>
    simp only [yahoo_parse_single, hh] at h
    by_cases h1 : pyStrip te = "" ∨ (pyStrip te).length < 10
    · rw [if_pos h1] at h
      exact absurd h (by simp)
    · rw [if_neg h1] at h
      have ha := Option.some.inj h
      push_neg at h1
      rw [← ha]
      exact h1.2

theorem yahooLoop_mem {cutoff : ℤ} {maxA : ℕ} {now : ℤ}
    (items : List YahooItem) (acc : List NewsArticle)
    (hacc : ∀ a ∈ acc, 10 ≤ a.title.length ∧ cutoff ≤ a.published_at) :
    ∀ a ∈ yahooLoop cutoff maxA now items acc,
      10 ≤ a.title.length ∧ cutoff ≤ a.published_at := by
  induction items generalizing acc with
  | nil => exact hacc
  | cons item rest ih =>
    rw [yahooLoop]
    cases hp : yahoo_parse_single now item with
    | none => exact ih acc hacc
    | some a =>
      by_cases htitle : a.title ≠ ""
      · simp only [if_pos htitle]
        set acc2 := if cutoff ≤ a.published_at then acc ++ [a] else acc with hacc2def
        have hacc2 : ∀ b ∈ acc2,
            10 ≤ b.title.length ∧ cutoff ≤ b.published_at := by
          rw [hacc2def]
          by_cases hc : cutoff ≤ a.published_at
          · simp only [if_pos hc]
            intro b hb
            rcases List.mem_append.mp hb with hb | hb
            · exact hacc b hb
            · rcases List.mem_singleton.mp hb with rfl
              exact ⟨yahoo_parse_single_title hp, hc⟩
          · simp only [if_neg hc]
            exact hacc
        by_cases hlen : maxA ≤ acc2.length
        · simp only [if_pos hlen]
          exact hacc2
        · simp only [if_neg hlen]
          exact ih _ hacc2
      · simp only [if_neg htitle]
        exact ih acc hacc

theorem yahooLoop_length {cutoff : ℤ} {maxA : ℕ} {now : ℤ}
    (items : List YahooItem) (acc : List NewsArticle)
    (hacc : acc.length < maxA) :
    (yahooLoop cutoff maxA now items acc).length ≤ maxA := by
  induction items generalizing acc with
  | nil => exact le_of_lt hacc
  | cons item rest ih =>
    rw [yahooLoop]
    cases hp : yahoo_parse_single now item with
    | none => exact ih acc hacc
    | some a =>
      by_cases htitle : a.title ≠ ""
      · simp only [if_pos htitle]
        set acc2 := if cutoff ≤ a.published_at then acc ++ [a] else acc with hacc2def
        have hlen2 : acc2.length ≤ acc.length + 1 := by
          rw [hacc2def]
          by_cases hc : cutoff ≤ a.published_at
          · simp [if_pos hc]
          · simp [if_neg hc]
        by_cases hlen : maxA ≤ acc2.length
        · simp only [if_pos hlen]
          omega
        · simp only [if_neg hlen]
          exact ih _ (by omega)
      · simp only [if_neg htitle]
        exact ih acc hacc

/-- CLAIM C6 (amended): for a fetch with positive window and article cap,
the Finnhub client returns only articles published within the window, with
a title of at least the minimum length (10 characters) and a non-empty
URL, and returns at most `max_articles` of them; the Yahoo client
guarantees the window, title-length and cap conditions but may keep an
article whose URL is empty; the NewsAPI client applies none of these
filters client-side (see the counterexample). -/
theorem provider_parse_filter_guarantees
    (now : ℤ) (hours_back max_articles : ℕ) (hmax : 0 < max_articles)
    (fdata : List FinnhubItem) (yitems : List YahooItem) :
    (∀ a ∈ finnhub_parse_articles now hours_back max_articles fdata,
        10 ≤ a.title.length ∧ a.url ≠ ""
          ∧ now - hours_back * 3600 ≤ a.published_at)
    ∧ (finnhub_parse_articles now hours_back max_articles fdata).length
        ≤ max_articles
    ∧ (∀ a ∈ yahoo_parse_articles now hours_back max_articles yitems,
        10 ≤ a.title.length ∧ now - hours_back * 3600 ≤ a.published_at)
    ∧ (yahoo_parse_articles now hours_back max_articles yitems).length
        ≤ max_articles := by
  refine ⟨?_, ?_, ?_, ?_⟩
  · intro a ha
    obtain ⟨h1, h2, h3⟩ :=
      @finnhubLoop_mem (now - hours_back * 3600) max_articles now fdata []
        (by simp) a ha
    exact ⟨h1, h2, h3⟩
  · exact finnhubLoop_length fdata [] (by simpa using hmax)
  · intro a ha
    exact @yahooLoop_mem (now - hours_back * 3600) max_articles now _ []
      (by simp) a ha
  · exact yahooLoop_length _ [] (by simpa using hmax)

/-- Raw NewsAPI article with every field missing. -/
def emptyRaw : NewsApiRawArticle := {}

/-- CLAIM C6 counterexample: a successful NewsAPI fetch (window 12h, cap
15) whose payload holds one article with no fields yields an output
article with an empty URL and an empty (length < 10) title — the NewsAPI
client enforces neither the URL nor the title-length condition. -/
theorem newsapi_no_filter_counterexample :
    ∃ a ∈ newsapi_search_news 0 12 15
        (HttpResult.response 200 (NewsApiBody.payload (some "ok") 1 [emptyRaw])),
      a.url = "" ∧ a.title.length < 10 := by
  decide

/-- Finnhub item used by the C6 witness. -/
def fWitnessItem : FinnhubItem :=
  { headline := some "A sufficiently long headline", url := some "http://x",
    datetime := some 9000, summary := some "s", source := some "Src" }

/-- Yahoo item used by the C6 witness. -/
def yWitnessItem : YahooItem :=
  { h3Text := some "Another long headline here", href := some "/news/x",
    timeText := some "5 minutes ago" }

/-- Witness for the amended C6 at a concrete fetch (now = 10000, 1-hour
window, cap 2): the only Finnhub article satisfies all three conditions,
the only Yahoo article satisfies the window and title conditions, and both
results respect the cap. -/
theorem provider_parse_filter_guarantees_witness :
    (∀ a ∈ finnhub_parse_articles 10000 1 2 [fWitnessItem],
        10 ≤ a.title.length ∧ a.url ≠ ""
          ∧ (10000 : ℤ) - 1 * 3600 ≤ a.published_at)
    ∧ (finnhub_parse_articles 10000 1 2 [fWitnessItem]).length ≤ 2
    ∧ (∀ a ∈ yahoo_parse_articles 10000 1 2 [yWitnessItem],
        10 ≤ a.title.length ∧ (10000 : ℤ) - 1 * 3600 ≤ a.published_at)
    ∧ (yahoo_parse_articles 10000 1 2 [yWitnessItem]).length ≤ 2 :=
  provider_parse_filter_guarantees 10000 1 2 (by decide)
    [fWitnessItem] [yWitnessItem]

/-- CLAIM C8: a provider client's fetch returns the empty list — rather
than raising — on a network error, on any non-200 status, and on a
malformed payload (undecodable JSON, a NewsAPI status other than `ok`, a
non-list Finnhub payload); totality of the embedding models the absence of
exceptions. -/
theorem provider_search_failure_empty
    (now : ℤ) (hours_back max_articles : ℕ) :
    (newsapi_search_news now hours_back max_articles .netError = [])
    ∧ (∀ (status : ℕ) (body : NewsApiBody), status ≠ 200 →
        newsapi_search_news now hours_back max_articles
          (.response status body) = [])
    ∧ (newsapi_search_news now hours_back max_articles
        (.response 200 .malformed) = [])
    ∧ (∀ (st : Option String) (tot : ℕ) (arts : List NewsApiRawArticle),
        st ≠ some "ok" →
        newsapi_search_news now hours_back max_articles
          (.response 200 (.payload st tot arts)) = [])
    ∧ (finnhub_search_news now hours_back max_articles .netError = [])
    ∧ (∀ (status : ℕ) (body : FinnhubBody), status ≠ 200 →
        finnhub_search_news now hours_back max_articles
          (.response status body) = [])
    ∧ (finnhub_search_news now hours_back max_articles
        (.response 200 .malformed) = [])
    ∧ (finnhub_search_news now hours_back max_articles
        (.response 200 .notList) = []) := by
  refine ⟨rfl, ?_, rfl, ?_, rfl, ?_, rfl, rfl⟩
  · intro status body hs
    cases body <;> simp [newsapi_search_news, hs]
  · intro st tot arts hst
    simp [newsapi_search_news, hst]
  · intro status body hs
    cases body <;> simp [finnhub_search_news, hs]

/-- Witness for C8 at a concrete failed fetch: a 500 response and a
non-`ok` NewsAPI status both yield the empty result. -/
theorem provider_search_failure_empty_witness :
    newsapi_search_news 0 12 15 (.response 500 .malformed) = []
    ∧ newsapi_search_news 0 12 15
        (.response 200 (.payload (some "error") 0 [emptyRaw])) = []
    ∧ finnhub_search_news 0 12 15 (.response 404 .notList) = [] :=
  ⟨(provider_search_failure_empty 0 12 15).2.1 500 .malformed (by decide),
   (provider_search_failure_empty 0 12 15).2.2.2.1 (some "error") 0 [emptyRaw]
     (by decide),
   (provider_search_failure_empty 0 12 15).2.2.2.2.2.1 404 .notList
     (by decide)⟩

/-! Content enrichment, `app/services/article_content_fetcher.py`
(`ArticleContentFetcher`).  The per-article HTTP fetch and trafilatura
extraction are abstracted by a `FetchReply` oracle: a network error
(`aiohttp.ClientError`, including the 10s timeout), any other exception,
or a response with a status and the (optional) extracted main content. -/

/-- Abstract outcome of fetching and extracting one article's page. -/
inductive FetchReply where
  | netError
  | otherError
  | http (status : ℕ) (extracted : Option String)
deriving DecidableEq, Repr

/-- `ArticleContentFetcher.fetch_article_content`
(`article_content_fetcher.py`, lines 35-103): skip non-http(s) URLs,
return the article unchanged on any failure, and set `content` only when
extraction yields more than 100 characters. -/
def fetch_article_content (reply : NewsArticle → FetchReply)
    (article : NewsArticle) : NewsArticle :=
  if article.url = "" ∨ ¬ pyStartswith article.url "http" then article
  else
    match reply article with
    | .netError => article
    | .otherError => article
    | .http status extracted =>
      if status ≠ 200 then article
      else
        match extracted with
        | none => article
        | some content =>
          if 100 < content.length then { article with content := some content }
          else article

/-- Batched loop of `ArticleContentFetcher.fetch_multiple_contents`
(`article_content_fetcher.py`, lines 105-144): slices of `max_concurrent`
articles are fetched (concurrently in the source, with `asyncio.gather`
preserving order) and appended in order.  For `max_concurrent ≥ 1` the
`- 1` adjustments make the recursion structural; the source raises
`ValueError` for `max_concurrent = 0` before any iteration. -/
def fetchBatches (max_concurrent : ℕ) (reply : NewsArticle → FetchReply) :
    List NewsArticle → List NewsArticle
  | [] => []
  | x :: xs =>
    (fetch_article_content reply x
        :: (xs.take (max_concurrent - 1)).map (fetch_article_content reply))
      ++ fetchBatches max_concurrent reply (xs.drop (max_concurrent - 1))
termination_by l => l.length
decreasing_by
  simp only [List.length_drop, List.length_cons]
  omega

/-- `ArticleContentFetcher.fetch_multiple_contents`. -/
def fetch_multiple_contents (max_concurrent : ℕ)
    (reply : NewsArticle → FetchReply) (articles : List NewsArticle) :
    List NewsArticle :=
  fetchBatches max_concurrent reply articles

theorem fetchBatches_eq_map (max_concurrent : ℕ)
    (reply : NewsArticle → FetchReply) (articles : List NewsArticle) :
    fetchBatches max_concurrent reply articles
      = articles.map (fetch_article_content reply) := by
  induction articles using fetchBatches.induct max_concurrent reply with
  | case1 => simp [fetchBatches]
  | case2 x xs ih =>
    rw [fetchBatches, ih, List.cons_append, ← List.map_append,
      List.take_append_drop, List.map_cons]

/-- CLAIM C7: enrichment returns one article per input article, in input
order (position `i` of the output is the fetch of position `i` of the
input — articles are never dropped, and one failure never affects the
rest); and an article is returned unchanged whenever its URL is not
http(s), the fetch raises (network or other error), the response status is
not 200, extraction yields nothing, or extraction yields at most 100
characters. -/
theorem enrichment_same_shape_failure_unchanged
    (max_concurrent : ℕ) (hmc : 0 < max_concurrent)
    (reply : NewsArticle → FetchReply) (articles : List NewsArticle) :
    (fetch_multiple_contents max_concurrent reply articles
      = articles.map (fetch_article_content reply))
    ∧ (fetch_multiple_contents max_concurrent reply articles).length
        = articles.length
    ∧ (∀ a, (a.url = "" ∨ ¬ pyStartswith a.url "http") →
        fetch_article_content reply a = a)
    ∧ (∀ a, reply a = .netError → fetch_article_content reply a = a)
    ∧ (∀ a, reply a = .otherError → fetch_article_content reply a = a)
    ∧ (∀ a status extracted, reply a = .http status extracted → status ≠ 200 →
        fetch_article_content reply a = a)
    ∧ (∀ a status, reply a = .http status none →
        fetch_article_content reply a = a)
    ∧ (∀ a content, reply a = .http 200 (some content) → content.length ≤ 100 →
        fetch_article_content reply a = a) := by
  refine ⟨fetchBatches_eq_map _ _ _, ?_, ?_, ?_, ?_, ?_, ?_, ?_⟩
  · rw [fetch_multiple_contents, fetchBatches_eq_map]
    exact List.length_map _ _
  · intro a ha
    unfold fetch_article_content
    rw [if_pos ha]
  · intro a ha
    unfold fetch_article_content
    by_cases hu : a.url = "" ∨ ¬ pyStartswith a.url "http"
    · rw [if_pos hu]
    · rw [if_neg hu, ha]
  · intro a ha
    unfold fetch_article_content
    by_cases hu : a.url = "" ∨ ¬ pyStartswith a.url "http"
    · rw [if_pos hu]
    · rw [if_neg hu, ha]
  · intro a status extracted ha hs
    unfold fetch_article_content
    by_cases hu : a.url = "" ∨ ¬ pyStartswith a.url "http"
    · rw [if_pos hu]
    · rw [if_neg hu, ha]
      simp [hs]
  · intro a status ha
    unfold fetch_article_content
    by_cases hu : a.url = "" ∨ ¬ pyStartswith a.url "http"
    · rw [if_pos hu]
    · rw [if_neg hu, ha]
      by_cases hs : status = 200 <;> simp [hs]
  · intro a content ha hlen
    unfold fetch_article_content
    by_cases hu : a.url = "" ∨ ¬ pyStartswith a.url "http"
    · rw [if_pos hu]
    · rw [if_neg hu, ha]
      have h2 : ¬ 100 < content.length := not_lt.mpr hlen
      simp [h2]

/-- Witness for C7 at a concrete batch of two articles (width 5): the
first URL fails with a network error and comes back unchanged, the batch
keeps its length, and the output is the per-article map. -/
theorem enrichment_same_shape_failure_unchanged_witness :
    (fetch_multiple_contents 5
        (fun _ => FetchReply.netError) [mkArticle "t1" "http://a"]
      = [mkArticle "t1" "http://a"].map
          (fetch_article_content (fun _ => FetchReply.netError)))
    ∧ (fetch_multiple_contents 5
        (fun _ => FetchReply.netError) [mkArticle "t1" "http://a"]).length
        = 1
    ∧ fetch_article_content (fun _ => FetchReply.netError)
        (mkArticle "t1" "http://a") = mkArticle "t1" "http://a" := by
  have h := enrichment_same_shape_failure_unchanged 5 (by decide)
    (fun _ => FetchReply.netError) [mkArticle "t1" "http://a"]
  exact ⟨h.1, h.2.1, h.2.2.2.1 (mkArticle "t1" "http://a") rfl⟩

/-! Fleet orchestrator, `app/jobs/stock_tracker_job.py`
(`StockTrackerJob.run_implementation`, lines 73-161).  A ticker's analysis
is abstracted as a `TickerOutcome`: the `execute()` call of the per-ticker
job returns a `COMPLETED` payload or a non-`COMPLETED` status (the job
engine catches its own exceptions), and any exception raised by the loop
body itself (including the post-success persistence step) is caught by the
per-ticker `except` clause. -/

/-- Per-ticker outcome of running the analysis job and the follow-up
steps. -/
inductive TickerOutcome where
  | completed (sentiment_label : String) (sentiment_score : ℚ)
      (articles_found : ℕ) (notifs : ℕ)
  | failedJob (error : String)
  | raised (error : String)
deriving DecidableEq, Repr

/-- One entry of the orchestrator's `results` list. -/
structure ResultEntry where
  ticker : String
  status : String
  sentiment : Option String := none
  articles : Option ℕ := none
  error : Option String := none
deriving DecidableEq, Repr

/-- The entry appended for one ticker (`stock_tracker_job.py`, lines
128-133, 140-144 and 149-153). -/
def entry_for (ticker : String) (o : TickerOutcome) : ResultEntry :=
  match o with
  | .completed label _ articles _ =>
    { ticker := ticker, status := "success", sentiment := some label,
      articles := some articles }
  | .failedJob err =>
    { ticker := ticker, status := "failed", error := some err }
  | .raised err =>
    { ticker := ticker, status := "error", error := some err }

/-- Notifications sent for one ticker: only a completed analysis fans out
to subscribers. -/
def notifs_for (o : TickerOutcome) : ℕ :=
  match o with
  | .completed _ _ _ n => n
  | _ => 0

/-- Sequential per-ticker loop (`stock_tracker_job.py`, lines 89-153):
every ticker contributes exactly one `results` entry and the loop never
stops early. -/
def trackerLoop (exec : String → String → TickerOutcome) :
    List (String × String) → List ResultEntry × ℕ
  | [] => ([], 0)
  | (t, c) :: rest =>
    let e := entry_for t (exec t c)
    let n := notifs_for (exec t c)
    let tail := trackerLoop exec rest
    (e :: tail.1, n + tail.2)

/-- Summary dict returned for a non-empty ticker list
(`stock_tracker_job.py`, lines 155-161). -/
structure TrackerSummary where
  tickers_processed : ℕ
  successful : ℕ
  failed : ℕ
  notifications_sent : ℕ
  results : List ResultEntry
deriving DecidableEq, Repr

/-- Return value of the orchestrator: the short `noTickers` dict
(`tickers_processed`, `notifications_sent` and a message only — no
`successful`/`failed` keys, lines 79-84) or the full summary. -/
inductive TrackerResult where
  | noTickers
  | summary (s : TrackerSummary)
deriving DecidableEq, Repr

/-- `StockTrackerJob.run_implementation`. -/
def tracker_run_implementation (tracked : List (String × String))
    (exec : String → String → TickerOutcome) : TrackerResult :=
  if tracked = [] then .noTickers
  else
    let loop := trackerLoop exec tracked
    .summary
      { tickers_processed := tracked.length,
        successful :=
          (loop.1.filter (fun r => r.status == "success")).length,
        failed :=
          (loop.1.filter (fun r => ! (r.status == "success"))).length,
        notifications_sent := loop.2,
        results := loop.1 }

theorem trackerLoop_eq (exec : String → String → TickerOutcome)
    (tracked : List (String × String)) :
    trackerLoop exec tracked
      = (tracked.map (fun tc => entry_for tc.1 (exec tc.1 tc.2)),
         (tracked.map (fun tc => notifs_for (exec tc.1 tc.2))).sum) := by
  induction tracked with
  | nil => rfl
  | cons tc rest ih =>
    obtain ⟨t, c⟩ := tc
    rw [trackerLoop, ih]
    simp

/-- CLAIM C9 (amended): for a fleet run over one or more tracked tickers,
each ticker contributes exactly one result entry (in order, independent of
the other tickers' outcomes — a failure neither stops the loop nor adds or
removes entries), and the summary reports `tickers_processed = n` with
`successful + failed = n`.  A run over zero tickers instead returns the
short `noTickers` dict, which carries no `successful`/`failed` counts (see
the counterexample). -/
theorem tracker_fleet_isolation (tracked : List (String × String))
    (exec : String → String → TickerOutcome) (h : tracked ≠ []) :
    ∃ s : TrackerSummary,
      tracker_run_implementation tracked exec = .summary s
      ∧ s.tickers_processed = tracked.length
      ∧ s.results = tracked.map (fun tc => entry_for tc.1 (exec tc.1 tc.2))
      ∧ s.results.length = tracked.length
      ∧ s.successful + s.failed = tracked.length
      ∧ s.notifications_sent
          = (tracked.map (fun tc => notifs_for (exec tc.1 tc.2))).sum := by
  refine ⟨_, by rw [tracker_run_implementation, if_neg h], rfl, ?_, ?_, ?_, ?_⟩
  · simp only [trackerLoop_eq]
  · simp only [trackerLoop_eq]
    exact List.length_map _ _
  · simp only
    have := @List.length_eq_length_filter_add ResultEntry
      (trackerLoop exec tracked).1 (fun r => r.status == "success")
    rw [trackerLoop_eq] at this ⊢
    simp only [List.length_map] at this ⊢
    omega
  · simp only [trackerLoop_eq]

/-- Witness for the amended C9: three tickers of which the second fails
with a raised exception and the third with a FAILED job outcome still
produce three entries and `successful = 1`, `failed = 2`. -/
theorem tracker_fleet_isolation_witness :
    ∃ s : TrackerSummary,
      tracker_run_implementation
          [("AAPL", "Apple"), ("MSFT", "Microsoft"), ("TSLA", "Tesla")]
          (fun t _ =>
            if t = "MSFT" then TickerOutcome.raised "boom"
            else if t = "TSLA" then TickerOutcome.failedJob "failed"
            else TickerOutcome.completed "positive" 0 3 2)
        = .summary s
      ∧ s.tickers_processed = 3
      ∧ s.results.length = 3
      ∧ s.successful + s.failed = 3 := by
  obtain ⟨s, h1, h2, _, h4, h5, _⟩ :=
    tracker_fleet_isolation
      [("AAPL", "Apple"), ("MSFT", "Microsoft"), ("TSLA", "Tesla")]
      (fun t _ =>
        if t = "MSFT" then TickerOutcome.raised "boom"
        else if t = "TSLA" then TickerOutcome.failedJob "failed"
        else TickerOutcome.completed "positive" 0 3 2)
      (by decide)
  exact ⟨s, h1, h2, h4, h5⟩

/-- CLAIM C9 counterexample: a fleet run over zero tracked tickers returns
the short `noTickers` dict rather than a summary carrying `successful` and
`failed` counts, so the claimed summary shape fails at `n = 0`. -/
theorem tracker_empty_counterexample :
    tracker_run_implementation []
        (fun _ _ => TickerOutcome.raised "unused")
      = TrackerResult.noTickers
    ∧ ∀ s : TrackerSummary,
        tracker_run_implementation []
            (fun _ _ => TickerOutcome.raised "unused")
          ≠ TrackerResult.summary s :=
  ⟨rfl, fun _ h => TrackerResult.noConfusion h⟩

/-! Summarization, `app/services/text_summarizer.py` (`TextSummarizer`).
The DistilBART generation together with decoding, `_clean_summary` and the
final strip (and the `except` fallback to `text[:500] + "..."`) is opaque
ML inference, abstracted as a function `m : String → String`; the claims
below only concern when `m` is reached and on which text. -/

/-- Python `s[:n]`: the first `n` characters. -/
def pySlice (s : String) (n : ℕ) : String :=
  String.mk (s.data.take n)

/-- Python `sep.join(parts)`. -/
def pyJoin (sep : String) : List String → String
  | [] => ""
  | x :: xs => xs.foldl (fun acc y => acc ++ (sep ++ y)) x

/-- `TextSummarizer.summarize_text` (`text_summarizer.py`, lines 97-148):
texts that are falsy or whose stripped length is below 100 characters are
returned stripped without touching the model; otherwise the opaque model
pipeline `m` produces the summary. -/
def summarize_text (m : String → String) (text : String) : String :=
  if text = "" ∨ (pyStrip text).length < 100 then pyStrip text
  else m text

/-- Truthiness of `article.content and len(article.content) > 100`
(`text_summarizer.py`, lines 172-175). -/
def hasContent (a : NewsArticle) : Bool :=
  match a.content with
  | some c => decide (c ≠ "") && decide (100 < c.length)
  | none => false

/-- The combined text fed to the model in the `combine=True` branch
(`text_summarizer.py`, lines 187-190). -/
def combinedText (articles : List NewsArticle) : String :=
  pyJoin "\n\n"
    (articles.map (fun a => a.title ++ ": " ++ pySlice (a.content.getD "") 500))

/-- `TextSummarizer.summarize_articles` (`text_summarizer.py`, lines
150-206). -/
def summarize_articles (m : String → String) (combine : Bool)
    (articles : List NewsArticle) : String :=
  if articles = [] then "No articles available for summarization."
  else
    let articles_with_content := articles.filter hasContent
    if articles_with_content = [] then
      let summaries := (articles.take 5).filterMap
        (fun a => if a.title ≠ "" then some ("• " ++ a.title) else none)
      if summaries = [] then "No content available."
      else pyJoin "\n" summaries
    else
      if combine then
        summarize_text m (combinedText (articles_with_content.take 5))
      else
        pyJoin "\n\n"
          ((articles_with_content.take 5).map
            (fun a => "• " ++ a.title ++ ": "
              ++ summarize_text m (a.content.getD "")))

/-- CLAIM C10: for a non-empty article list, the combined summary is built
from at most the first five articles whose content exceeds 100 characters
(the text handed to `summarize_text` depends only on those); and when no
article qualifies, the result is the bullet list of the titled articles
among the first five (or the fixed "No content available." message when
that list is empty), computed identically for every model function — the
summarization model is not invoked. -/
theorem brief_summary_sources (m : String → String)
    (articles : List NewsArticle) (h : articles ≠ []) :
    (articles.filter hasContent ≠ [] →
      summarize_articles m true articles
        = summarize_text m
            (combinedText ((articles.filter hasContent).take 5)))
    ∧ (articles.filter hasContent = [] →
        (∀ m2 : String → String,
          summarize_articles m2 true articles
            = summarize_articles m true articles)
        ∧ summarize_articles m true articles
            = (if ((articles.take 5).filterMap
                  (fun a => if a.title ≠ "" then some ("• " ++ a.title)
                    else none)) = []
               then "No content available."
               else pyJoin "\n"
                 ((articles.take 5).filterMap
                   (fun a => if a.title ≠ "" then some ("• " ++ a.title)
                     else none)))) := by
  constructor
  · intro hc
    unfold summarize_articles
    rw [if_neg h, if_neg hc, if_pos rfl]
  · intro hc
    constructor
    · intro m2
      unfold summarize_articles
      rw [if_neg h, if_neg h, if_pos hc, if_pos hc]
    · unfold summarize_articles
      rw [if_neg h, if_pos hc]

/-- Witness for C10 at a single contentless article: the result is the
bullet list of its title, and it is the same for every model function. -/
theorem brief_summary_sources_witness :
    summarize_articles (fun s => s) true [mkArticle "Doge soars" "u"]
      = pyJoin "\n" ["• Doge soars"]
    ∧ (∀ m2 : String → String,
        summarize_articles m2 true [mkArticle "Doge soars" "u"]
          = summarize_articles (fun s => s) true
              [mkArticle "Doge soars" "u"]) := by
  have h := (brief_summary_sources (fun s => s)
    [mkArticle "Doge soars" "u"] (by decide)).2 (by decide)
  refine ⟨?_, h.1⟩
  rw [h.2]
  decide
